import Mathlib

/-!
# Inventario API: dashboard, product CRUD and seed/export

A shallow embedding of `cmd/api/main.go` and `internal/models/product.go`.

Conventions of the embedding

* `float64` prices are values of a type `F` with a linear order: the comparison `>` on
  finite, non-NaN doubles.  Float addition, multiplication, conversion from `int` and the
  `%.2f` rendering are operations of the Go runtime and are carried in `Float64Ops`.
* `primitive.ObjectID` (twelve bytes) is the natural number its bytes spell, big endian.
* The Mongo collection is the list of its documents in natural order, with a flag telling
  whether the server answers; when it does not, every driver call returns an error.
* `sort.Slice` belongs to the Go standard library.  Handlers take it as a parameter and the
  theorems assume only what package `sort` documents (`SortSliceContract`).
* The seed file is kept as the JSON value it holds.  Encoding a product and decoding it
  again gives the same id, name, price and stock (finite floats, valid UTF-8 names), so an
  array in the file is the list of products it decodes to.
-/

namespace Inventario

/-! ## Data model (`internal/models/product.go`) -/

/-- The type `primitive.ObjectID`. -/
abbrev ObjectID := Nat

/-- The zero object id, `primitive.NilObjectID`. -/
def NilObjectID : ObjectID := 0

/-- The struct `models.Product`. -/
structure Product (F : Type) where
  ID : ObjectID
  Name : String
  Price : F
  Stock : Int
deriving DecidableEq

/-- Payload handed to the dashboard template (`DashboardData`). -/
structure DashboardData (F : Type) where
  TotalValue : String
  TopProducts : List (Product F)
  ChartLabels : List String
  ChartValues : List Int
deriving DecidableEq

/-- Runtime float64 operations used by `dashboardHandler`: the zero value of `totalVal`,
`+`, `*`, the conversion `float64(int)` and `fmt.Sprintf("$%.2f", x)`. -/
structure Float64Ops (F : Type) where
  zero : F
  add : F → F → F
  mul : F → F → F
  ofInt : Int → F
  sprintf : F → String

/-! ## The Mongo collection -/

/-- The collection `productos`: its documents and whether the server is reachable. -/
structure Collection (F : Type) where
  docs : List (Product F)
  up : Bool

/-- The call `productCollection.Find(ctx, bson.M{})`: the documents the cursor will yield,
or `none` for an error. -/
def Collection.Find {F : Type} (c : Collection F) : Option (List (Product F)) :=
  if c.up then some c.docs else none

/-- The call `cursor.All(ctx, &results)` on a slice variable; `none` is the nil slice.  The
decoded documents replace the contents; when there is none the slice header is kept, so a
nil slice stays nil. -/
def cursorAll {α : Type} (results : Option (List α)) (docs : List α) : Option (List α) :=
  match results, docs with
  | none, [] => none
  | _, d :: ds => some (d :: ds)
  | some _, [] => some []

/-- Elements of a Go slice as seen by `range`, `len` and indexing: nil has none. -/
def elems {α : Type} (s : Option (List α)) : List α :=
  s.getD []

/-- The call `CountDocuments(ctx, bson.M{})`. -/
def Collection.CountDocuments {F : Type} (c : Collection F) : Option Nat :=
  if c.up then some c.docs.length else none

/-- Effect of `$set` of name, price and stock on the first document whose `_id` matches. -/
def setFirst {F : Type} (id : ObjectID) (name : String) (price : F) (stock : Int) :
    List (Product F) → List (Product F)
  | [] => []
  | p :: ps =>
    if p.ID = id then { p with Name := name, Price := price, Stock := stock } :: ps
    else p :: setFirst id name price stock ps

/-- The call `UpdateOne(ctx, {_id: id}, {$set: {name, price, stock}})`, without upsert. -/
def Collection.UpdateOne {F : Type} (c : Collection F) (id : ObjectID) (name : String)
    (price : F) (stock : Int) : Option (Collection F) :=
  if c.up then some { c with docs := setFirst id name price stock c.docs } else none

/-- Removal of the first document whose `_id` matches. -/
def removeFirst {F : Type} (id : ObjectID) : List (Product F) → List (Product F)
  | [] => []
  | p :: ps => if p.ID = id then ps else p :: removeFirst id ps

/-- The call `DeleteOne(ctx, {_id: id})`. -/
def Collection.DeleteOne {F : Type} (c : Collection F) (id : ObjectID) :
    Option (Collection F) :=
  if c.up then some { c with docs := removeFirst id c.docs } else none

/-- Field `_id` is tagged `omitempty`: a zero id is left out of the document and the driver
puts a generated one in its place. -/
def ensureID {F : Type} (gen : ObjectID) (p : Product F) : Product F :=
  if p.ID = NilObjectID then { p with ID := gen } else p

/-- The driver prepares the documents of one `InsertMany` in order; `oids n` is the id it
generates for the document at position `n` when that document has none. -/
def ensureIDs {F : Type} (oids : Nat → ObjectID) : Nat → List (Product F) → List (Product F)
  | _, [] => []
  | n, p :: ps => ensureID (oids n) p :: ensureIDs oids (n + 1) ps

/-- Ordered insertion by the server: documents go in one by one and the first duplicate
`_id` stops the batch with an error (`false`), keeping what was inserted before. -/
def insertOrdered {F : Type} : List (Product F) → List (Product F) → List (Product F) × Bool
  | col, [] => (col, true)
  | col, d :: ds =>
    if d.ID ∈ col.map (·.ID) then (col, false) else insertOrdered (col ++ [d]) ds

/-- The call `InsertMany(ctx, docs)`: the collection afterwards and whether it succeeded. -/
def Collection.InsertMany {F : Type} (c : Collection F) (docs : List (Product F))
    (oids : Nat → ObjectID) : Collection F × Bool :=
  if c.up then
    let r := insertOrdered c.docs (ensureIDs oids 0 docs)
    ({ c with docs := r.1 }, r.2)
  else (c, false)

/-- The call `InsertOne(ctx, doc)`: the collection afterwards and the inserted id. -/
def Collection.InsertOne {F : Type} (c : Collection F) (doc : Product F) (gen : ObjectID) :
    Option (Collection F × ObjectID) :=
  if c.up then
    let d := ensureID gen doc
    if d.ID ∈ c.docs.map (·.ID) then none else some ({ c with docs := c.docs ++ [d] }, d.ID)
  else none

/-! ## Object ids -/

/-- Value of one hexadecimal digit, as package `encoding/hex` reads it. -/
def fromHexChar (c : Char) : Option Nat :=
  if '0' ≤ c ∧ c ≤ '9' then some (c.toNat - '0'.toNat)
  else if 'a' ≤ c ∧ c ≤ 'f' then some (c.toNat - 'a'.toNat + 10)
  else if 'A' ≤ c ∧ c ≤ 'F' then some (c.toNat - 'A'.toNat + 10)
  else none

/-- The function `primitive.ObjectIDFromHex`: the string must be 24 bytes long and every
byte a hexadecimal digit. -/
def ObjectIDFromHex (s : String) : Option ObjectID :=
  if s.utf8ByteSize ≠ 24 then none
  else s.toList.foldlM (fun acc c => (fromHexChar c).map (fun d => 16 * acc + d)) 0

/-! ## `sort.Slice` -/

/-- Requirements package `sort` puts on a `less` function: it is strict and describes a
transitive ordering, in both the positive and the negative sense. -/
structure TransitiveOrdering {α : Type} (less : α → α → Bool) : Prop where
  irrefl : ∀ a, less a a = false
  trans : ∀ a b c, less a b = true → less b c = true → less a c = true
  negTrans : ∀ a b c, less a b = false → less b c = false → less a c = false

/-- What `sort.Slice` promises: the slice is rearranged (a permutation) so that no later
element must sort before an earlier one.  Stability is explicitly not promised. -/
def SortSliceContract {α : Type} (sortSlice : (α → α → Bool) → List α → List α) : Prop :=
  ∀ less xs, TransitiveOrdering less →
    (sortSlice less xs).Perm xs ∧ (sortSlice less xs).Pairwise (fun a b => less b a = false)

/-! ## Dashboard (`dashboardHandler`) -/

/-- The `less` closure given to `sort.Slice`: `products[i].Price > products[j].Price`. -/
def priceLess {F : Type} [LinearOrder F] (a b : Product F) : Bool :=
  decide (a.Price > b.Price)

/-- One iteration of the `for _, p := range products` loop. -/
def accumulate {F : Type} (fl : Float64Ops F) (acc : F × List String × List Int)
    (p : Product F) : F × List String × List Int :=
  (fl.add acc.1 (fl.mul p.Price (fl.ofInt p.Stock)), acc.2.1 ++ [p.Name], acc.2.2 ++ [p.Stock])

/-- Steps 2 to 4 of `dashboardHandler`: totals and chart arrays, the sort, the top five. -/
def dashboardData {F : Type} [LinearOrder F] (fl : Float64Ops F)
    (sortSlice : (Product F → Product F → Bool) → List (Product F) → List (Product F))
    (products : List (Product F)) : DashboardData F :=
  let acc := products.foldl (accumulate fl) (fl.zero, [], [])
  let sorted := sortSlice priceLess products
  let top5 := if sorted.length > 5 then sorted.take 5 else sorted
  { TotalValue := fl.sprintf acc.1
    TopProducts := top5
    ChartLabels := acc.2.1
    ChartValues := acc.2.2 }

/-- The handler `dashboardHandler`: status code and, on success, the data rendered by the
template. `tmplOk` tells whether `templates/dashboard.html` parses. -/
def dashboardHandler {F : Type} [LinearOrder F] (fl : Float64Ops F)
    (sortSlice : (Product F → Product F → Bool) → List (Product F) → List (Product F))
    (c : Collection F) (tmplOk : Bool) : Nat × Option (DashboardData F) :=
  match c.Find with
  | none => (500, none)
  | some docs =>
    let products := cursorAll none docs
    let data := dashboardData fl sortSlice (elems products)
    if tmplOk then (200, some data) else (500, none)

/-! ## Seeding and export (`seedDatabase`, `exportHandler`) -/

/-- Contents of `./seeds/productos.json` as far as `json.Unmarshal` into `[]models.Product`
tells them apart: text it rejects, the literal `null`, or an array of products. -/
inductive FileData (F : Type) where
  | garbage : FileData F
  | null : FileData F
  | array (items : List (Product F)) : FileData F
deriving DecidableEq

/-- The call `json.Unmarshal(fileData, &products)`; `none` is an error.  The literal `null`
leaves the slice nil. -/
def Unmarshal {F : Type} : FileData F → Option (Option (List (Product F)))
  | .garbage => none
  | .null => some none
  | .array items => some (some items)

/-- The call `json.MarshalIndent(products, "", "  ")`: a nil slice is encoded as `null`, any
other slice as an array (`[]` when empty). -/
def MarshalIndent {F : Type} : Option (List (Product F)) → FileData F
  | none => .null
  | some items => .array items

/-- Startup seeding, `seedDatabase`.  `file` is what `ioutil.ReadFile(SeedFile)` finds
(`none` when it fails); the result is the collection afterwards. -/
def seedDatabase {F : Type} (c : Collection F) (file : Option (FileData F))
    (oids : Nat → ObjectID) : Collection F :=
  match c.CountDocuments with
  | none => c
  | some count =>
    if count > 0 then c
    else
      match file with
      | none => c
      | some fileData =>
        match Unmarshal fileData with
        | none => c
        | some products =>
          let ui := (elems products).foldl (fun ui p => ui ++ [p]) []
          if ui.length > 0 then (c.InsertMany ui oids).1 else c

/-- The handler `exportHandler`: status, response text and the seed file afterwards.
`diskOk` tells whether `ioutil.WriteFile` succeeds. -/
def exportHandler {F : Type} (method : String) (c : Collection F) (diskOk : Bool)
    (file : Option (FileData F)) : Nat × String × Option (FileData F) :=
  if method ≠ "POST" then (405, "Método no permitido", file)
  else
    match c.Find with
    | none => (500, "Error leyendo BD", file)
    | some docs =>
      let products := cursorAll none docs
      let fileData := MarshalIndent products
      if diskOk then (200, "Backup guardado correctamente", some fileData)
      else (500, "Error escribiendo archivo en disco", file)

/-! ## Product CRUD (`productsHandler`) -/

/-- What the handlers read from a request to `/products`: the method, the query parameter
`id` (empty when absent) and the product the JSON body decodes to (`none` when decoding
fails). -/
structure Request (F : Type) where
  Method : String
  id : String
  Body : Option (Product F)

/-- Body of a response. -/
inductive Reply (F : Type) where
  | text (msg : String) : Reply F
  | message (msg : String) : Reply F
  | products (items : List (Product F)) : Reply F
  | inserted (id : ObjectID) : Reply F

/-- Status code and body of a response. -/
structure Response (F : Type) where
  status : Nat
  reply : Reply F

/-- The handler `getProducts`.  On failure the body is the driver's error text, written
`error` here. -/
def getProducts {F : Type} (c : Collection F) (_r : Request F) : Response F × Collection F :=
  match c.Find with
  | none => (⟨500, .text "error"⟩, c)
  | some docs =>
    let products := docs.foldl (fun products p => products ++ [p]) []
    (⟨200, .products products⟩, c)

/-- The handler `createProduct`; `newID` is the value of `primitive.NewObjectID()` and `gen`
the id the driver would generate.  On failure of the insertion the body is the driver's
error text, written `error` here. -/
def createProduct {F : Type} (c : Collection F) (newID gen : ObjectID) (r : Request F) :
    Response F × Collection F :=
  match r.Body with
  | none => (⟨400, .text "JSON inválido"⟩, c)
  | some prod =>
    let prod := { prod with ID := newID }
    match c.InsertOne prod gen with
    | none => (⟨500, .text "error"⟩, c)
    | some (c', id) => (⟨201, .inserted id⟩, c')

/-- The handler `updateProduct`. -/
def updateProduct {F : Type} (c : Collection F) (r : Request F) : Response F × Collection F :=
  let idStr := r.id
  if idStr = "" then (⟨400, .text "Falta el parámetro ID"⟩, c)
  else
    match ObjectIDFromHex idStr with
    | none => (⟨400, .text "ID inválido"⟩, c)
    | some objID =>
      match r.Body with
      | none => (⟨400, .text "JSON inválido"⟩, c)
      | some prod =>
        match c.UpdateOne objID prod.Name prod.Price prod.Stock with
        | none => (⟨500, .text "Error al actualizar"⟩, c)
        | some c' => (⟨200, .message "Producto actualizado"⟩, c')

/-- The handler `deleteProduct`. -/
def deleteProduct {F : Type} (c : Collection F) (r : Request F) : Response F × Collection F :=
  let idStr := r.id
  if idStr = "" then (⟨400, .text "Falta el parámetro ID"⟩, c)
  else
    match ObjectIDFromHex idStr with
    | none => (⟨400, .text "ID inválido"⟩, c)
    | some objID =>
      match c.DeleteOne objID with
      | none => (⟨500, .text "Error al eliminar"⟩, c)
      | some c' => (⟨200, .message "Producto eliminado"⟩, c')

/-- The handler `productsHandler`: dispatch on the HTTP method. -/
def productsHandler {F : Type} (c : Collection F) (newID gen : ObjectID) (r : Request F) :
    Response F × Collection F :=
  if r.Method = "GET" then getProducts c r
  else if r.Method = "POST" then createProduct c newID gen r
  else if r.Method = "PUT" then updateProduct c r
  else if r.Method = "DELETE" then deleteProduct c r
  else (⟨405, .text "Método no permitido"⟩, c)

/-! ## Instances of `sort.Slice` -/

/-- A stable instance of `sort.Slice`: insertion sort, elements that compare equal keep
their order. -/
def stableSortSlice {α : Type} (less : α → α → Bool) (xs : List α) : List α :=
  xs.insertionSort (fun a b => less b a = false)

/-- An instance of `sort.Slice` that is not stable: among elements that compare equal the
later ones come first. -/
def reversingSortSlice {α : Type} (less : α → α → Bool) (xs : List α) : List α :=
  xs.reverse.insertionSort (fun a b => less b a = false)

/-- The spec's ordering, step 4 of the dashboard aggregator: the stable sort of the product
list by price descending (ties keep the fetch order). -/
def stableSortByPriceDesc {F : Type} [LinearOrder F] (products : List (Product F)) :
    List (Product F) :=
  products.insertionSort (fun a b => a.Price ≥ b.Price)

/-- The float64 operations on whole numbers (below 2^53 in size), where they are exact and
`%.2f` prints the number followed by `.00`. -/
def wholeOps : Float64Ops Int :=
  { zero := 0
    add := fun x y => x + y
    mul := fun x y => x * y
    ofInt := fun n => n
    sprintf := fun x => "$" ++ toString x ++ ".00" }

/-- A store of thirteen products in which A and B share the highest price. -/
def tiedStore : List (Product Int) :=
  [⟨1, "A", 120, 1⟩, ⟨2, "B", 120, 1⟩, ⟨3, "C", 80, 1⟩, ⟨4, "D", 50, 1⟩, ⟨5, "E", 10, 1⟩,
   ⟨6, "F", 110, 1⟩, ⟨7, "G", 100, 1⟩, ⟨8, "H", 90, 1⟩, ⟨9, "I", 70, 1⟩, ⟨10, "J", 60, 1⟩,
   ⟨11, "K", 30, 1⟩, ⟨12, "L", 20, 1⟩, ⟨13, "M", 40, 1⟩]

/-! ## Lemmas on sorting -/

theorem priceLess_transitiveOrdering {F : Type} [LinearOrder F] :
    TransitiveOrdering (priceLess : Product F → Product F → Bool) := by
  refine ⟨?_, ?_, ?_⟩
  · intro a
    simp [priceLess]
  · intro a b c hab hbc
    simp only [priceLess, gt_iff_lt, decide_eq_true_eq] at *
    exact lt_trans hbc hab
  · intro a b c hab hbc
    simp only [priceLess, gt_iff_lt, decide_eq_false_iff_not, not_lt] at *
    exact le_trans hab hbc

theorem insertionSort_sorted_of_ordering {α : Type} (less : α → α → Bool)
    (h : TransitiveOrdering less) (xs : List α) :
    (xs.insertionSort (fun a b => less b a = false)).Pairwise (fun a b => less b a = false) := by
  haveI : IsTotal α (fun a b => less b a = false) := ⟨by
    intro a b
    by_cases hba : less b a = false
    · exact Or.inl hba
    · right
      have hba1 : less b a = true := by simpa using hba
      by_contra hab
      have hab1 : less a b = true := by simpa using hab
      have := h.trans a b a hab1 hba1
      rw [h.irrefl a] at this
      exact Bool.false_ne_true this⟩
  haveI : IsTrans α (fun a b => less b a = false) := ⟨by
    intro a b c hab hbc
    exact h.negTrans c b a hbc hab⟩
  exact List.sorted_insertionSort (fun a b => less b a = false) xs

theorem stableSortSlice_contract {α : Type} :
    SortSliceContract (stableSortSlice : (α → α → Bool) → List α → List α) := by
  intro less xs h
  exact ⟨List.perm_insertionSort _ xs, insertionSort_sorted_of_ordering less h xs⟩

theorem reversingSortSlice_contract {α : Type} :
    SortSliceContract (reversingSortSlice : (α → α → Bool) → List α → List α) := by
  intro less xs h
  exact ⟨(List.perm_insertionSort _ xs.reverse).trans (List.reverse_perm xs),
    insertionSort_sorted_of_ordering less h xs.reverse⟩

theorem top5_eq_take {α : Type} (l : List α) :
    (if l.length > 5 then l.take 5 else l) = l.take 5 := by
  split_ifs with h
  · rfl
  · exact (List.take_of_length_le (by omega)).symm

theorem sorted_desc_of_contract {F : Type} [LinearOrder F]
    (sortSlice : (Product F → Product F → Bool) → List (Product F) → List (Product F))
    (hs : SortSliceContract sortSlice) (products : List (Product F)) :
    (sortSlice priceLess products).Pairwise (fun a b => a.Price ≥ b.Price) := by
  have h := (hs priceLess products priceLess_transitiveOrdering).2
  refine h.imp ?_
  intro a b hab
  simpa [priceLess] using hab

theorem accumulate_foldl {F : Type} (fl : Float64Ops F) (products : List (Product F))
    (acc : F × List String × List Int) :
    (products.foldl (accumulate fl) acc).2 =
      (acc.2.1 ++ products.map (·.Name), acc.2.2 ++ products.map (·.Stock)) := by
  induction products generalizing acc with
  | nil => simp
  | cons p ps ih =>
    rw [List.foldl_cons, ih]
    simp [accumulate]

theorem dashboardHandler_ok {F : Type} [LinearOrder F] (fl : Float64Ops F)
    (sortSlice : (Product F → Product F → Bool) → List (Product F) → List (Product F))
    (products : List (Product F)) :
    dashboardHandler fl sortSlice ⟨products, true⟩ true =
      (200, some (dashboardData fl sortSlice products)) := by
  cases products <;> simp [dashboardHandler, Collection.Find, cursorAll, elems]

theorem eq_of_perm_of_map_eq {α β : Type} (f : α → β) :
    ∀ (l₁ l₂ : List α), l₁.Perm l₂ → l₁.map f = l₂.map f → (l₁.map f).Nodup → l₁ = l₂
  | [], _, hp, _, _ => hp.nil_eq
  | _ :: _, [], hp, _, _ => by simpa using hp.length_eq
  | a :: t₁, b :: t₂, hp, hm, hn => by
    simp only [List.map_cons, List.cons.injEq] at hm
    have hb : b ∈ a :: t₁ := hp.mem_iff.2 (List.mem_cons_self b t₂)
    have hab : a = b :=
      List.inj_on_of_nodup_map hn (List.mem_cons_self a t₁) hb hm.1
    subst hab
    have hn2 : (t₁.map f).Nodup := (List.nodup_cons.1 hn).2
    rw [eq_of_perm_of_map_eq f t₁ t₂ hp.cons_inv hm.2 hn2]

/-- Two price-descending arrangements of the same products list the same prices. -/
theorem prices_eq_of_sorted_perm {F : Type} [LinearOrder F] {l₁ l₂ : List (Product F)}
    (hp : l₁.Perm l₂) (h₁ : l₁.Pairwise (fun a b => a.Price ≥ b.Price))
    (h₂ : l₂.Pairwise (fun a b => a.Price ≥ b.Price)) :
    l₁.map (·.Price) = l₂.map (·.Price) := by
  have s₁ : (l₁.map (·.Price)).Sorted (· ≥ ·) := List.pairwise_map.2 h₁
  have s₂ : (l₂.map (·.Price)).Sorted (· ≥ ·) := List.pairwise_map.2 h₂
  exact List.eq_of_perm_of_sorted (hp.map _) s₁ s₂

/-- With pairwise distinct prices there is one price-descending arrangement. -/
theorem sorted_perm_unique {F : Type} [LinearOrder F] {l₁ l₂ : List (Product F)}
    (hp : l₁.Perm l₂) (h₁ : l₁.Pairwise (fun a b => a.Price ≥ b.Price))
    (h₂ : l₂.Pairwise (fun a b => a.Price ≥ b.Price)) (hn : (l₁.map (·.Price)).Nodup) :
    l₁ = l₂ :=
  eq_of_perm_of_map_eq (·.Price) l₁ l₂ hp (prices_eq_of_sorted_perm hp h₁ h₂) hn

theorem stableSortByPriceDesc_perm {F : Type} [LinearOrder F] (products : List (Product F)) :
    (stableSortByPriceDesc products).Perm products :=
  List.perm_insertionSort _ products

theorem stableSortByPriceDesc_sorted {F : Type} [LinearOrder F] (products : List (Product F)) :
    (stableSortByPriceDesc products).Pairwise (fun a b => a.Price ≥ b.Price) := by
  haveI : IsTotal (Product F) (fun a b => a.Price ≥ b.Price) := ⟨fun a b => le_total _ _⟩
  haveI : IsTrans (Product F) (fun a b => a.Price ≥ b.Price) :=
    ⟨fun a b c hab hbc => le_trans hbc hab⟩
  exact List.sorted_insertionSort (fun a b : Product F => a.Price ≥ b.Price) products

theorem filter_orderedInsert_price {F : Type} [LinearOrder F] (q : F) (a : Product F)
    (l : List (Product F)) :
    (l.orderedInsert (fun a b => a.Price ≥ b.Price) a).filter (fun p => decide (p.Price = q)) =
      if a.Price = q then a :: l.filter (fun p => decide (p.Price = q))
      else l.filter (fun p => decide (p.Price = q)) := by
  induction l with
  | nil => by_cases h : a.Price = q <;> simp [h]
  | cons b t ih =>
    by_cases hab : a.Price ≥ b.Price
    · rw [List.orderedInsert, if_pos hab]
      by_cases h : a.Price = q <;> simp [List.filter_cons, h]
    · rw [List.orderedInsert, if_neg hab]
      have hne : b.Price ≠ a.Price := fun e => hab (le_of_eq e)
      by_cases h : a.Price = q
      · have hb : ¬ b.Price = q := fun e => hne (e.trans h.symm)
        simp [List.filter_cons, ih, h, hb]
      · by_cases hb : b.Price = q <;> simp [List.filter_cons, ih, h, hb]

/-- The reference sort is stable: products of one price come out in their fetch order. -/
theorem stableSortByPriceDesc_stable {F : Type} [LinearOrder F] (q : F)
    (products : List (Product F)) :
    (stableSortByPriceDesc products).filter (fun p => decide (p.Price = q)) =
      products.filter (fun p => decide (p.Price = q)) := by
  induction products with
  | nil => rfl
  | cons a t ih =>
    unfold stableSortByPriceDesc at ih ⊢
    rw [List.insertionSort, filter_orderedInsert_price, ih]
    by_cases h : a.Price = q <;> simp [List.filter_cons, h]

theorem mem_drop_of_mem_diff {α : Type} [DecidableEq α] {products sorted : List α}
    (hp : sorted.Perm products) (n : Nat) {p : α} (h : p ∈ products.diff (sorted.take n)) :
    p ∈ sorted.drop n := by
  have h2 : p ∈ sorted.diff (sorted.take n) := (hp.symm.diff_right _).mem_iff.1 h
  have h3 : ((sorted.diff (sorted.take n) : List α) : Multiset α) = (sorted.drop n : List α) := by
    rw [← Multiset.coe_sub]
    have hs : ((sorted : List α) : Multiset α) =
        ((sorted.take n : List α) : Multiset α) + ((sorted.drop n : List α) : Multiset α) := by
      rw [Multiset.coe_add, List.take_append_drop]
    rw [hs, add_tsub_cancel_left]
  have h4 : p ∈ ((sorted.diff (sorted.take n) : List α) : Multiset α) := Multiset.mem_coe.2 h2
  rw [h3] at h4
  exact Multiset.mem_coe.1 h4

/-! ## Lemmas on the collection -/

theorem setFirst_of_not_mem {F : Type} (id : ObjectID) (name : String) (price : F)
    (stock : Int) (docs : List (Product F)) (h : id ∉ docs.map (·.ID)) :
    setFirst id name price stock docs = docs := by
  induction docs with
  | nil => rfl
  | cons p ps ih =>
    simp only [List.map_cons, List.mem_cons, not_or] at h
    have hne : ¬ p.ID = id := fun e => h.1 e.symm
    simp [setFirst, hne, ih h.2]

theorem map_set_of_not_mem {F : Type} (id : ObjectID) (name : String) (price : F)
    (stock : Int) (docs : List (Product F)) (h : id ∉ docs.map (·.ID)) :
    docs.map (fun p => if p.ID = id then (⟨p.ID, name, price, stock⟩ : Product F) else p) =
      docs := by
  induction docs with
  | nil => rfl
  | cons p ps ih =>
    simp only [List.map_cons, List.mem_cons, not_or] at h
    have hne : ¬ p.ID = id := fun e => h.1 e.symm
    simp [hne, ih h.2]

theorem setFirst_eq_map {F : Type} (id : ObjectID) (name : String) (price : F) (stock : Int)
    (docs : List (Product F)) (hu : (docs.map (·.ID)).Nodup) :
    setFirst id name price stock docs =
      docs.map (fun p => if p.ID = id then (⟨p.ID, name, price, stock⟩ : Product F) else p) := by
  induction docs with
  | nil => rfl
  | cons p ps ih =>
    simp only [List.map_cons, List.nodup_cons] at hu
    by_cases hp : p.ID = id
    · have hnot : id ∉ ps.map (·.ID) := hp ▸ hu.1
      simp [setFirst, hp, map_set_of_not_mem id name price stock ps hnot]
    · simp [setFirst, hp, ih hu.2]

theorem foldl_append_singleton {α : Type} (l acc : List α) :
    l.foldl (fun ui p => ui ++ [p]) acc = acc ++ l := by
  induction l generalizing acc with
  | nil => simp
  | cons a t ih => simp [ih]

theorem insertOrdered_extends {F : Type} (ds col : List (Product F)) :
    ∃ t, (insertOrdered col ds).1 = col ++ t := by
  induction ds generalizing col with
  | nil => exact ⟨[], by simp [insertOrdered]⟩
  | cons d ds ih =>
    by_cases h : d.ID ∈ col.map (·.ID)
    · exact ⟨[], by simp [insertOrdered, h]⟩
    · obtain ⟨t, ht⟩ := ih (col ++ [d])
      exact ⟨d :: t, by simp [insertOrdered, h, ht]⟩

theorem insertOrdered_of_nodup {F : Type} (ds col : List (Product F))
    (hu : ((col ++ ds).map (·.ID)).Nodup) : insertOrdered col ds = (col ++ ds, true) := by
  induction ds generalizing col with
  | nil => simp [insertOrdered]
  | cons d ds ih =>
    have hnot : d.ID ∉ col.map (·.ID) := by
      intro hmem
      rw [List.map_append, List.map_cons] at hu
      exact (List.nodup_append.1 hu).2.2 hmem (List.mem_cons_self _ _)
    have hu2 : (((col ++ [d]) ++ ds).map (·.ID)).Nodup := by simpa using hu
    simp [insertOrdered, hnot, ih (col ++ [d]) hu2]

theorem ensureIDs_fields {F : Type} (oids : Nat → ObjectID) (docs : List (Product F)) (n : Nat) :
    (ensureIDs oids n docs).map (fun p => (p.Name, p.Price, p.Stock)) =
      docs.map (fun p => (p.Name, p.Price, p.Stock)) := by
  induction docs generalizing n with
  | nil => rfl
  | cons p ps ih =>
    simp only [ensureIDs, List.map_cons, ih]
    by_cases h : p.ID = NilObjectID <;> simp [ensureID, h]

theorem mem_ensureIDs {F : Type} (oids : Nat → ObjectID) (docs : List (Product F)) (n : Nat)
    (x : ObjectID) (hx : x ∈ (ensureIDs oids n docs).map (·.ID)) :
    (x ∈ docs.map (·.ID) ∧ x ≠ NilObjectID) ∨
      (NilObjectID ∈ docs.map (·.ID) ∧ ∃ m, x = oids m) := by
  induction docs generalizing n with
  | nil => simp [ensureIDs] at hx
  | cons p ps ih =>
    simp only [ensureIDs, List.map_cons, List.mem_cons] at hx
    rcases hx with hx | hx
    · by_cases h : p.ID = NilObjectID
      · right
        simp only [ensureID, h, if_true] at hx
        exact ⟨by simp [h], n, hx⟩
      · left
        simp only [ensureID, h, if_false] at hx
        exact ⟨by simp [hx], hx ▸ h⟩
    · rcases ih (n + 1) hx with ⟨h1, h2⟩ | ⟨h1, h2⟩
      · exact Or.inl ⟨by simp [h1], h2⟩
      · exact Or.inr ⟨by simp [h1], h2⟩

theorem ensureIDs_nodup {F : Type} (oids : Nat → ObjectID) (docs : List (Product F)) (n : Nat)
    (hu : (docs.map (·.ID)).Nodup) (hfresh : ∀ m, oids m ∉ docs.map (·.ID)) :
    ((ensureIDs oids n docs).map (·.ID)).Nodup := by
  induction docs generalizing n with
  | nil => simp [ensureIDs]
  | cons p ps ih =>
    simp only [List.map_cons, List.nodup_cons] at hu
    have hfresh2 : ∀ m, oids m ∉ ps.map (·.ID) := fun m hm =>
      hfresh m (by simp only [List.map_cons]; exact List.mem_cons_of_mem _ hm)
    simp only [ensureIDs, List.map_cons, List.nodup_cons]
    refine ⟨?_, ih (n + 1) hu.2 hfresh2⟩
    intro hmem
    by_cases h : p.ID = NilObjectID
    · simp only [ensureID, h, if_true] at hmem
      rcases mem_ensureIDs oids ps (n + 1) _ hmem with ⟨h1, _⟩ | ⟨h1, _⟩
      · exact hfresh2 n h1
      · exact hu.1 (h ▸ h1)
    · simp only [ensureID, h, if_false] at hmem
      rcases mem_ensureIDs oids ps (n + 1) _ hmem with ⟨h1, _⟩ | ⟨_, m, hm⟩
      · exact hu.1 h1
      · exact hfresh m (by simp [← hm])

/-! ## Dashboard theorems -/

/-- C2: for every fetched list of N products the top list built by `dashboardHandler` has
length exactly min(5, N) and is sorted by price descending; for the store A(10), B(50),
C(5) the top list is [B, A, C].  Holds for every `sort.Slice` that meets its contract. -/
theorem top_products_length_and_order :
    (∀ (F : Type) [LinearOrder F] (fl : Float64Ops F)
        (sortSlice : (Product F → Product F → Bool) → List (Product F) → List (Product F)),
        SortSliceContract sortSlice → ∀ products : List (Product F),
        ∃ d, dashboardHandler fl sortSlice ⟨products, true⟩ true = (200, some d) ∧
          d.TopProducts.length = min 5 products.length ∧
          d.TopProducts.Pairwise (fun a b => a.Price ≥ b.Price)) ∧
    (∀ (fl : Float64Ops Int)
        (sortSlice : (Product Int → Product Int → Bool) → List (Product Int) → List (Product Int)),
        SortSliceContract sortSlice → ∀ ia ib ic : ObjectID,
        ∃ d, dashboardHandler fl sortSlice
            ⟨[⟨ia, "A", 10, 2⟩, ⟨ib, "B", 50, 1⟩, ⟨ic, "C", 5, 10⟩], true⟩ true = (200, some d) ∧
          d.TopProducts = [⟨ib, "B", 50, 1⟩, ⟨ia, "A", 10, 2⟩, ⟨ic, "C", 5, 10⟩]) := by
  constructor
  · intro F _ fl sortSlice hs products
    refine ⟨_, dashboardHandler_ok fl sortSlice products, ?_, ?_⟩
    · have hlen := (hs priceLess products priceLess_transitiveOrdering).1.length_eq
      simp only [dashboardData]
      rw [top5_eq_take, List.length_take, hlen]
    · simp only [dashboardData, top5_eq_take]
      exact (sorted_desc_of_contract sortSlice hs products).sublist (List.take_sublist 5 _)
  · intro fl sortSlice hs ia ib ic
    refine ⟨_, dashboardHandler_ok fl sortSlice _, ?_⟩
    have hp := (hs priceLess [⟨ia, "A", 10, 2⟩, ⟨ib, "B", 50, 1⟩, ⟨ic, "C", 5, 10⟩]
      priceLess_transitiveOrdering).1
    have hsorted := sorted_desc_of_contract sortSlice hs
      [⟨ia, "A", 10, 2⟩, ⟨ib, "B", 50, 1⟩, ⟨ic, "C", 5, 10⟩]
    have htarget : ([⟨ib, "B", 50, 1⟩, ⟨ia, "A", 10, 2⟩, ⟨ic, "C", 5, 10⟩] :
        List (Product Int)).Pairwise (fun a b => a.Price ≥ b.Price) := by
      simp only [List.pairwise_cons, List.mem_cons, List.mem_singleton, List.not_mem_nil,
        forall_eq_or_imp, forall_eq, List.Pairwise.nil, and_true, false_imp_iff,
        implies_true]
      norm_num
    have hperm : ([⟨ib, "B", 50, 1⟩, ⟨ia, "A", 10, 2⟩, ⟨ic, "C", 5, 10⟩] :
        List (Product Int)).Perm (sortSlice priceLess
          [⟨ia, "A", 10, 2⟩, ⟨ib, "B", 50, 1⟩, ⟨ic, "C", 5, 10⟩]) :=
      (List.Perm.swap _ _ _).trans hp.symm
    have hn : (([⟨ib, "B", 50, 1⟩, ⟨ia, "A", 10, 2⟩, ⟨ic, "C", 5, 10⟩] :
        List (Product Int)).map (·.Price)).Nodup := by
      simp only [List.map_cons, List.map_nil]
      norm_num
    have heq := sorted_perm_unique hperm htarget hsorted hn
    simp only [dashboardData, top5_eq_take, ← heq]
    rfl

/-- Witness of C2 with insertion sort standing for `sort.Slice`. -/
theorem top_products_length_and_order_witness :
    SortSliceContract
        (stableSortSlice : (Product Int → Product Int → Bool) → List (Product Int) → _) ∧
      ∃ d, dashboardHandler wholeOps stableSortSlice
          ⟨[⟨1, "A", 10, 2⟩, ⟨2, "B", 50, 1⟩, ⟨3, "C", 5, 10⟩], true⟩ true = (200, some d) ∧
        d.TopProducts.length = min 5 3 ∧
        d.TopProducts.Pairwise (fun a b => a.Price ≥ b.Price) :=
  ⟨stableSortSlice_contract,
    top_products_length_and_order.1 Int wholeOps stableSortSlice stableSortSlice_contract
      [⟨1, "A", 10, 2⟩, ⟨2, "B", 50, 1⟩, ⟨3, "C", 5, 10⟩]⟩

/-- C5: the chart arrays have one entry per fetched product, entry i being the name and
the stock of the i-th fetched product, whatever `sort.Slice` does to the product slice
afterwards. -/
theorem chart_arrays_follow_fetch_order {F : Type} [LinearOrder F] (fl : Float64Ops F)
    (sortSlice : (Product F → Product F → Bool) → List (Product F) → List (Product F))
    (products : List (Product F)) :
    ∃ d, dashboardHandler fl sortSlice ⟨products, true⟩ true = (200, some d) ∧
      d.ChartLabels.length = products.length ∧ d.ChartValues.length = products.length ∧
      (∀ i : Nat, d.ChartLabels[i]? = products[i]?.map (·.Name)) ∧
      (∀ i : Nat, d.ChartValues[i]? = products[i]?.map (·.Stock)) := by
  refine ⟨_, dashboardHandler_ok fl sortSlice products, ?_, ?_, ?_, ?_⟩ <;>
    simp [dashboardData, accumulate_foldl]

/-- C10: the top list is a sub-multiset of the fetched products, and every fetched product
left out of it costs no more than any product in it. -/
theorem top_products_are_the_dearest {F : Type} [LinearOrder F] (fl : Float64Ops F)
    (sortSlice : (Product F → Product F → Bool) → List (Product F) → List (Product F))
    (hs : SortSliceContract sortSlice) (products : List (Product F)) :
    ∃ d, dashboardHandler fl sortSlice ⟨products, true⟩ true = (200, some d) ∧
      d.TopProducts.Subperm products ∧
      ∀ p ∈ products.diff d.TopProducts, ∀ q ∈ d.TopProducts, p.Price ≤ q.Price := by
  have hp := (hs priceLess products priceLess_transitiveOrdering).1
  have hsorted := sorted_desc_of_contract sortSlice hs products
  refine ⟨_, dashboardHandler_ok fl sortSlice products, ?_, ?_⟩
  · simp only [dashboardData, top5_eq_take]
    exact (List.take_sublist 5 _).subperm.trans hp.subperm
  · simp only [dashboardData, top5_eq_take]
    intro p hpm q hq
    have hdrop := mem_drop_of_mem_diff hp 5 hpm
    rw [← List.take_append_drop 5 (sortSlice priceLess products)] at hsorted
    exact (List.pairwise_append.1 hsorted).2.2 q hq p hdrop

/-- Witness of C10: six products, two of them at the same price. -/
theorem top_products_are_the_dearest_witness :
    SortSliceContract
        (stableSortSlice : (Product Int → Product Int → Bool) → List (Product Int) → _) ∧
      ∃ d, dashboardHandler wholeOps stableSortSlice
          ⟨[⟨1, "A", 10, 2⟩, ⟨2, "B", 50, 1⟩, ⟨3, "C", 5, 10⟩, ⟨4, "D", 7, 1⟩,
            ⟨5, "E", 10, 0⟩, ⟨6, "F", 3, 4⟩], true⟩ true = (200, some d) ∧
        d.TopProducts.Subperm [⟨1, "A", 10, 2⟩, ⟨2, "B", 50, 1⟩, ⟨3, "C", 5, 10⟩,
          ⟨4, "D", 7, 1⟩, ⟨5, "E", 10, 0⟩, ⟨6, "F", 3, 4⟩] ∧
        ∀ p ∈ ([⟨1, "A", 10, 2⟩, ⟨2, "B", 50, 1⟩, ⟨3, "C", 5, 10⟩, ⟨4, "D", 7, 1⟩,
            ⟨5, "E", 10, 0⟩, ⟨6, "F", 3, 4⟩] : List (Product Int)).diff d.TopProducts,
          ∀ q ∈ d.TopProducts, p.Price ≤ q.Price :=
  ⟨stableSortSlice_contract,
    top_products_are_the_dearest wholeOps stableSortSlice stableSortSlice_contract _⟩

/-- C9, refuted as stated: `sort.Slice` is not a stable sort.  With the conforming instance
`reversingSortSlice` and the thirteen products of `tiedStore` the top list starts B, A,
while the stable descending sort starts A, B; so the top list is not the stable one for
every behaviour `sort.Slice` may have. -/
theorem top_products_not_stable :
    SortSliceContract
        (reversingSortSlice : (Product Int → Product Int → Bool) → List (Product Int) → _) ∧
      (dashboardHandler wholeOps reversingSortSlice ⟨tiedStore, true⟩ true).2.map
          (·.TopProducts) =
        some [⟨2, "B", 120, 1⟩, ⟨1, "A", 120, 1⟩, ⟨6, "F", 110, 1⟩, ⟨7, "G", 100, 1⟩,
          ⟨8, "H", 90, 1⟩] ∧
      (stableSortByPriceDesc tiedStore).take (min 5 tiedStore.length) =
        [⟨1, "A", 120, 1⟩, ⟨2, "B", 120, 1⟩, ⟨6, "F", 110, 1⟩, ⟨7, "G", 100, 1⟩,
          ⟨8, "H", 90, 1⟩] ∧
      ¬ ∀ (sortSlice : (Product Int → Product Int → Bool) → List (Product Int) →
            List (Product Int)),
          SortSliceContract sortSlice → ∀ products : List (Product Int),
          ∃ d, dashboardHandler wholeOps sortSlice ⟨products, true⟩ true = (200, some d) ∧
            d.TopProducts = (stableSortByPriceDesc products).take (min 5 products.length) := by
  refine ⟨reversingSortSlice_contract, by decide, by decide, ?_⟩
  intro h
  obtain ⟨d, hd, htop⟩ := h reversingSortSlice reversingSortSlice_contract tiedStore
  rw [dashboardHandler_ok] at hd
  have hd2 : dashboardData wholeOps reversingSortSlice tiedStore = d := by
    simpa using hd
  rw [← hd2] at htop
  revert htop
  decide

/-- C9 as amended: the top list is the first min(5, N) entries of a price-descending
arrangement of the fetched products; its prices are, position by position, those of the
stable descending sort; and it is the stable prefix itself when no two fetched products
have the same price. -/
theorem top_products_sorted_arrangement {F : Type} [LinearOrder F] (fl : Float64Ops F)
    (sortSlice : (Product F → Product F → Bool) → List (Product F) → List (Product F))
    (hs : SortSliceContract sortSlice) (products : List (Product F)) :
    ∃ d, dashboardHandler fl sortSlice ⟨products, true⟩ true = (200, some d) ∧
      (∃ sorted : List (Product F), sorted.Perm products ∧
        sorted.Pairwise (fun a b => a.Price ≥ b.Price) ∧
        d.TopProducts = sorted.take (min 5 products.length)) ∧
      d.TopProducts.map (·.Price) =
        ((stableSortByPriceDesc products).take (min 5 products.length)).map (·.Price) ∧
      ((products.map (·.Price)).Nodup →
        d.TopProducts = (stableSortByPriceDesc products).take (min 5 products.length)) := by
  have hp := (hs priceLess products priceLess_transitiveOrdering).1
  have hsorted := sorted_desc_of_contract sortSlice hs products
  have hlen := hp.length_eq
  have htake : ∀ l : List (Product F), l.length = products.length →
      l.take (min 5 products.length) = l.take 5 := by
    intro l hl
    rw [← hl, List.take_eq_take]
    simp
  have hpp : (sortSlice priceLess products).Perm (stableSortByPriceDesc products) :=
    hp.trans (stableSortByPriceDesc_perm products).symm
  refine ⟨_, dashboardHandler_ok fl sortSlice products, ⟨_, hp, hsorted, ?_⟩, ?_, ?_⟩
  · simp only [dashboardData, top5_eq_take]
    exact (htake _ hlen).symm
  · simp only [dashboardData, top5_eq_take]
    rw [htake _ (stableSortByPriceDesc_perm products).length_eq, List.map_take, List.map_take,
      prices_eq_of_sorted_perm hpp hsorted (stableSortByPriceDesc_sorted products)]
  · intro hn
    simp only [dashboardData, top5_eq_take]
    rw [htake _ (stableSortByPriceDesc_perm products).length_eq,
      sorted_perm_unique hpp hsorted (stableSortByPriceDesc_sorted products)
        ((hp.map _).nodup_iff.2 hn)]

/-- Witness of amended C9 on the store A(10), B(50), C(5). -/
theorem top_products_sorted_arrangement_witness :
    SortSliceContract
        (reversingSortSlice : (Product Int → Product Int → Bool) → List (Product Int) → _) ∧
      ∃ d, dashboardHandler wholeOps reversingSortSlice
          ⟨[⟨1, "A", 10, 2⟩, ⟨2, "B", 50, 1⟩, ⟨3, "C", 5, 10⟩], true⟩ true = (200, some d) ∧
        (∃ sorted : List (Product Int),
          sorted.Perm [⟨1, "A", 10, 2⟩, ⟨2, "B", 50, 1⟩, ⟨3, "C", 5, 10⟩] ∧
          sorted.Pairwise (fun a b => a.Price ≥ b.Price) ∧
          d.TopProducts = sorted.take (min 5 3)) ∧
        d.TopProducts.map (·.Price) =
          ((stableSortByPriceDesc [⟨1, "A", 10, 2⟩, ⟨2, "B", 50, 1⟩, ⟨3, "C", 5, 10⟩]).take
            (min 5 3)).map (·.Price) ∧
        ((([⟨1, "A", 10, 2⟩, ⟨2, "B", 50, 1⟩, ⟨3, "C", 5, 10⟩] : List (Product Int)).map
            (·.Price)).Nodup →
          d.TopProducts =
            (stableSortByPriceDesc [⟨1, "A", 10, 2⟩, ⟨2, "B", 50, 1⟩, ⟨3, "C", 5, 10⟩]).take
              (min 5 3)) :=
  ⟨reversingSortSlice_contract,
    top_products_sorted_arrangement wholeOps reversingSortSlice reversingSortSlice_contract _⟩

/-! ## CRUD theorems -/

/-- C3: a PUT on `/products` that answers 200 leaves the record with the given id holding the
body's name, price and stock under its original id, every other record as it was, and the
number of records as it was; when no record has that id the store is unchanged.  Ids are
unique in the collection, as Mongo keeps them. -/
theorem put_replaces_three_fields {F : Type} (c : Collection F) (newID gen : ObjectID)
    (r : Request F) (hm : r.Method = "PUT")
    (hok : (productsHandler c newID gen r).1.status = 200)
    (hu : (c.docs.map (·.ID)).Nodup) :
    ∃ objID body, ObjectIDFromHex r.id = some objID ∧ r.Body = some body ∧
      (productsHandler c newID gen r).2.docs =
        c.docs.map (fun p =>
          if p.ID = objID then (⟨p.ID, body.Name, body.Price, body.Stock⟩ : Product F) else p) ∧
      (productsHandler c newID gen r).2.docs.length = c.docs.length ∧
      (objID ∉ c.docs.map (·.ID) → (productsHandler c newID gen r).2 = c) := by
  have hput : productsHandler c newID gen r = updateProduct c r := by
    simp [productsHandler, hm]
  rw [hput] at hok ⊢
  unfold updateProduct at hok ⊢
  by_cases hid : r.id = ""
  · simp [hid] at hok
  · cases hparse : ObjectIDFromHex r.id with
    | none => simp [hid, hparse] at hok
    | some objID =>
      cases hbody : r.Body with
      | none => simp [hid, hparse, hbody] at hok
      | some body =>
        by_cases hup : c.up = true
        · refine ⟨objID, body, rfl, rfl, ?_, ?_, ?_⟩
          · simp [hid, hparse, hbody, Collection.UpdateOne, hup, setFirst_eq_map _ _ _ _ _ hu]
          · simp [hid, hparse, hbody, Collection.UpdateOne, hup, setFirst_eq_map _ _ _ _ _ hu]
          · intro hnot
            have hc : ({ docs := c.docs, up := true } : Collection F) = c := by
              cases c
              simp_all
            simp [hid, hparse, hbody, Collection.UpdateOne, hup,
              setFirst_of_not_mem _ _ _ _ _ hnot, hc]
        · simp [hid, hparse, hbody, Collection.UpdateOne, hup] at hok

/-- Witness of C3: the second of two records is replaced. -/
theorem put_replaces_three_fields_witness :
    ∃ objID body, ObjectIDFromHex "0000000000000000000000ff" = some objID ∧
      (some (⟨0, "Z", 3, 4⟩ : Product Int)) = some body ∧
      (productsHandler (⟨[⟨7, "B", 10, 1⟩, ⟨255, "A", 10, 2⟩], true⟩ : Collection Int) 1 2
          ⟨"PUT", "0000000000000000000000ff", some ⟨0, "Z", 3, 4⟩⟩).2.docs =
        ([⟨7, "B", 10, 1⟩, ⟨255, "A", 10, 2⟩] : List (Product Int)).map (fun p =>
          if p.ID = objID then (⟨p.ID, body.Name, body.Price, body.Stock⟩ : Product Int) else p) ∧
      (productsHandler (⟨[⟨7, "B", 10, 1⟩, ⟨255, "A", 10, 2⟩], true⟩ : Collection Int) 1 2
          ⟨"PUT", "0000000000000000000000ff", some ⟨0, "Z", 3, 4⟩⟩).2.docs.length = 2 ∧
      (objID ∉ ([⟨7, "B", 10, 1⟩, ⟨255, "A", 10, 2⟩] : List (Product Int)).map (·.ID) →
        (productsHandler (⟨[⟨7, "B", 10, 1⟩, ⟨255, "A", 10, 2⟩], true⟩ : Collection Int) 1 2
          ⟨"PUT", "0000000000000000000000ff", some ⟨0, "Z", 3, 4⟩⟩).2 =
          ⟨[⟨7, "B", 10, 1⟩, ⟨255, "A", 10, 2⟩], true⟩) :=
  put_replaces_three_fields (⟨[⟨7, "B", 10, 1⟩, ⟨255, "A", 10, 2⟩], true⟩ : Collection Int) 1 2
    ⟨"PUT", "0000000000000000000000ff", some ⟨0, "Z", 3, 4⟩⟩ rfl (by decide) (by decide)

/-- C4: a PUT or DELETE on `/products` whose `id` parameter is missing, empty or not a valid
hex object id is answered with 400 and leaves the collection untouched, whatever the body
and whether or not the database is reachable. -/
theorem bad_id_is_rejected {F : Type} (c : Collection F) (newID gen : ObjectID)
    (r : Request F) (hm : r.Method = "PUT" ∨ r.Method = "DELETE")
    (hid : r.id = "" ∨ ObjectIDFromHex r.id = none) :
    (productsHandler c newID gen r).1.status = 400 ∧ (productsHandler c newID gen r).2 = c := by
  rcases hm with hm | hm
  · have hput : productsHandler c newID gen r = updateProduct c r := by
      simp [productsHandler, hm]
    rw [hput]
    unfold updateProduct
    by_cases he : r.id = ""
    · simp [he]
    · have hp : ObjectIDFromHex r.id = none := hid.resolve_left he
      simp [he, hp]
  · have hdel : productsHandler c newID gen r = deleteProduct c r := by
      simp [productsHandler, hm]
    rw [hdel]
    unfold deleteProduct
    by_cases he : r.id = ""
    · simp [he]
    · have hp : ObjectIDFromHex r.id = none := hid.resolve_left he
      simp [he, hp]

/-- Witness of C4: a DELETE with an id of 23 hex digits and one letter `g`. -/
theorem bad_id_is_rejected_witness :
    (productsHandler (⟨[⟨7, "B", 10, 1⟩], true⟩ : Collection Int) 1 2
        ⟨"DELETE", "00000000000000000000000g", none⟩).1.status = 400 ∧
      (productsHandler (⟨[⟨7, "B", 10, 1⟩], true⟩ : Collection Int) 1 2
        ⟨"DELETE", "00000000000000000000000g", none⟩).2 = ⟨[⟨7, "B", 10, 1⟩], true⟩ :=
  bad_id_is_rejected (⟨[⟨7, "B", 10, 1⟩], true⟩ : Collection Int) 1 2
    ⟨"DELETE", "00000000000000000000000g", none⟩ (Or.inr rfl) (Or.inr (by decide))

/-! ## Seeding and export theorems -/

theorem seedDatabase_of_nonempty {F : Type} (p : Product F) (ps : List (Product F))
    (up : Bool) (file : Option (FileData F)) (oids : Nat → ObjectID) :
    seedDatabase ⟨p :: ps, up⟩ file oids = ⟨p :: ps, up⟩ := by
  cases up <;> simp [seedDatabase, Collection.CountDocuments]

theorem insertMany_nonempty {F : Type} (up : Bool) (d : Product F) (ds : List (Product F))
    (oids : Nat → ObjectID) :
    ∃ q qs, ((⟨[], up⟩ : Collection F).InsertMany (d :: ds) oids).1 = ⟨q :: qs, up⟩ ∨
      ((⟨[], up⟩ : Collection F).InsertMany (d :: ds) oids).1 = ⟨[], false⟩ ∧ up = false := by
  cases up
  · exact ⟨d, [], Or.inr ⟨by simp [Collection.InsertMany], rfl⟩⟩
  · obtain ⟨t, ht⟩ := insertOrdered_extends (ensureIDs oids 1 ds) [ensureID (oids 0) d]
    refine ⟨ensureID (oids 0) d, t, Or.inl ?_⟩
    simp [Collection.InsertMany, ensureIDs, insertOrdered, ht]

/-- C6: running `seedDatabase` twice in a row leaves the collection as one run does, for
every collection, every state of the seed file and whatever ids the driver generates; and
a collection that holds at least one product is left unchanged. -/
theorem seeding_is_idempotent {F : Type} (c : Collection F) (file : Option (FileData F))
    (oids₁ oids₂ : Nat → ObjectID) :
    seedDatabase (seedDatabase c file oids₁) file oids₂ = seedDatabase c file oids₁ ∧
      ∀ (p : Product F) (ps : List (Product F)) (up : Bool),
        seedDatabase ⟨p :: ps, up⟩ file oids₁ = ⟨p :: ps, up⟩ := by
  refine ⟨?_, fun p ps up => seedDatabase_of_nonempty p ps up file oids₁⟩
  obtain ⟨docs, up⟩ := c
  cases docs with
  | cons p ps => rw [seedDatabase_of_nonempty, seedDatabase_of_nonempty]
  | nil =>
    cases up with
    | false => simp [seedDatabase, Collection.CountDocuments]
    | true =>
      cases file with
      | none => simp [seedDatabase, Collection.CountDocuments]
      | some fileData =>
        cases fileData with
        | garbage => simp [seedDatabase, Collection.CountDocuments, Unmarshal]
        | null => simp [seedDatabase, Collection.CountDocuments, Unmarshal, elems]
        | array items =>
          cases items with
          | nil => simp [seedDatabase, Collection.CountDocuments, Unmarshal, elems]
          | cons d ds =>
            have h1 : seedDatabase (⟨[], true⟩ : Collection F) (some (.array (d :: ds))) oids₁ =
                ((⟨[], true⟩ : Collection F).InsertMany (d :: ds) oids₁).1 := by
              simp [seedDatabase, Collection.CountDocuments, Unmarshal, elems,
                foldl_append_singleton]
            rw [h1]
            obtain ⟨q, qs, h | h⟩ := insertMany_nonempty true d ds oids₁
            · rw [h, seedDatabase_of_nonempty]
            · exact absurd h.2 (by simp)

/-- C7: exporting a collection S and then seeding an empty collection from the written file
gives back the products of S in name, price and stock (in the same order, hence as a
multiset), provided the ids of S are unique and the ids the driver generates are not
among them. -/
theorem export_then_seed_round_trip {F : Type} (S : List (Product F))
    (old : Option (FileData F)) (oids : Nat → ObjectID)
    (hu : (S.map (·.ID)).Nodup) (hfresh : ∀ n, oids n ∉ S.map (·.ID)) :
    ∃ fileData,
      exportHandler "POST" ⟨S, true⟩ true old =
        (200, "Backup guardado correctamente", some fileData) ∧
      (seedDatabase ⟨[], true⟩ (some fileData) oids).docs.map
          (fun p => (p.Name, p.Price, p.Stock)) =
        S.map (fun p => (p.Name, p.Price, p.Stock)) ∧
      ((seedDatabase ⟨[], true⟩ (some fileData) oids).docs.map
          (fun p => (p.Name, p.Price, p.Stock))).Perm
        (S.map (fun p => (p.Name, p.Price, p.Stock))) := by
  have key : ∃ fileData,
      exportHandler "POST" ⟨S, true⟩ true old =
        (200, "Backup guardado correctamente", some fileData) ∧
      (seedDatabase ⟨[], true⟩ (some fileData) oids).docs.map
          (fun p => (p.Name, p.Price, p.Stock)) =
        S.map (fun p => (p.Name, p.Price, p.Stock)) := by
    cases S with
    | nil =>
      refine ⟨.null, by simp [exportHandler, Collection.Find, cursorAll, MarshalIndent], ?_⟩
      simp [seedDatabase, Collection.CountDocuments, Unmarshal, elems]
    | cons d ds =>
      refine ⟨.array (d :: ds),
        by simp [exportHandler, Collection.Find, cursorAll, MarshalIndent], ?_⟩
      have hn := ensureIDs_nodup oids (d :: ds) 0 hu hfresh
      have hins := insertOrdered_of_nodup (ensureIDs oids 0 (d :: ds)) [] (by simpa using hn)
      have h1 : seedDatabase (⟨[], true⟩ : Collection F) (some (.array (d :: ds))) oids =
          ((⟨[], true⟩ : Collection F).InsertMany (d :: ds) oids).1 := by
        simp [seedDatabase, Collection.CountDocuments, Unmarshal, elems,
          foldl_append_singleton]
      rw [h1]
      simp only [Collection.InsertMany, if_true, hins, List.nil_append]
      exact ensureIDs_fields oids (d :: ds) 0
  obtain ⟨fileData, h1, h2⟩ := key
  exact ⟨fileData, h1, h2, h2 ▸ List.Perm.refl _⟩

/-- Witness of C7: one product without an id, one with the id 7. -/
theorem export_then_seed_round_trip_witness :
    ∃ fileData,
      exportHandler "POST" (⟨[⟨0, "A", 10, 2⟩, ⟨7, "B", 10, 1⟩], true⟩ : Collection Int) true none =
        (200, "Backup guardado correctamente", some fileData) ∧
      (seedDatabase ⟨[], true⟩ (some fileData) (fun n => 100 + n)).docs.map
          (fun p => (p.Name, p.Price, p.Stock)) =
        ([⟨0, "A", 10, 2⟩, ⟨7, "B", 10, 1⟩] : List (Product Int)).map
          (fun p => (p.Name, p.Price, p.Stock)) ∧
      ((seedDatabase ⟨[], true⟩ (some fileData) (fun n => 100 + n)).docs.map
          (fun p => (p.Name, p.Price, p.Stock))).Perm
        (([⟨0, "A", 10, 2⟩, ⟨7, "B", 10, 1⟩] : List (Product Int)).map
          (fun p => (p.Name, p.Price, p.Stock))) :=
  export_then_seed_round_trip ([⟨0, "A", 10, 2⟩, ⟨7, "B", 10, 1⟩] : List (Product Int)) none
    (fun n => 100 + n) (by decide) (by
      intro n
      simp only [List.map_cons, List.map_nil, List.mem_cons, List.mem_singleton,
        List.not_mem_nil, or_false, not_or]
      constructor <;> show ¬ (100 + n = _) <;> omega)

/-- C8, evaluated on the empty store: `exportHandler` answers 200 and the file it writes
holds the JSON literal `null`, not the empty array, while `getProducts` on the same store
answers with the empty array. -/
theorem export_of_empty_store_writes_null {F : Type} (old : Option (FileData F))
    (r : Request F) :
    exportHandler "POST" (⟨[], true⟩ : Collection F) true old =
        (200, "Backup guardado correctamente", some .null) ∧
      (FileData.null : FileData F) ≠ .array [] ∧
      (getProducts (⟨[], true⟩ : Collection F) r).1.reply = .products [] := by
  refine ⟨?_, ?_, ?_⟩
  · simp [exportHandler, Collection.Find, cursorAll, MarshalIndent]
  · intro h
    cases h
  · simp [getProducts, Collection.Find]

end Inventario
